import Mathlib

/-!
Verification of the gocov command-line core (`src/gocov/main.go`).

The Go program is embedded shallowly:
* pure string/list code (`putenv`, the parse-time file filter, environment
  composition) is translated directly into Lean functions over `String` and
  `List String`;
* the effectful pipeline (`symlinkHierarchy`, `instrumentPackage`,
  `instrumentAndTest`) is modelled by explicit oracles for the results of the
  filesystem and process calls, producing a result code together with a trace
  of the externally visible events, following the Go control flow statement by
  statement;
* the filesystem itself is modelled as a partial map from paths to nodes
  (regular files and symbolic links) for the frame properties.

Go compares strings bytewise; for valid UTF-8 the bytewise order and equality
agree with the character-list order used here.
-/

namespace Gocov

/-- Go `strings.HasPrefix s pre` from the standard library: `pre` is a
prefix of `s`. -/
def strHasPre (s pre : String) : Bool := pre.data.isPrefixOf s.data

/-- Function `putenv` (main.go lines 51–59), translated verbatim: it scans for the
first entry starting with the literal text `"GOPATH="` — not with the given
`key` — replaces that entry in place by `key ++ "=" ++ value`, and appends
the new entry when no entry starts with `"GOPATH="`. -/
def putenv : List String → String → String → List String
  | [], key, value => [key ++ "=" ++ value]
  | s :: env, key, value =>
    if strHasPre s "GOPATH=" then (key ++ "=" ++ value) :: env
    else s :: putenv env key value

/-- The value part of the entry `s` for key `k`: `s[len(k)+1:]`, as in
`os.Getenv`'s lookup of a `KEY=VALUE` entry. -/
def entryValue (s k : String) : String := String.mk (s.data.drop (k.data.length + 1))

/-- Lookup `os.Getenv k` over an environment list: the value of the first entry
starting with `k ++ "="`, or `""` when there is none (Go returns the empty
string for an unset variable; the runtime uses the first matching entry). -/
def getenv : List String → String → String
  | [], _ => ""
  | s :: env, k => if strHasPre s (k ++ "=") then entryValue s k else getenv env k

/-- The environment composition performed by `instrumentAndTest`
(main.go lines 180–187): set `GOCOVOUT` to `"-"`, then set `GOPATH` to
`tempDir ++ sep ++ gopath` when the process variable `GOPATH` is nonempty
(`sep` is `os.PathListSeparator`), and to `tempDir` otherwise.  Note that
`os.Getenv("GOPATH")` reads the process environment, i.e. the original
list `env0`, not the list already updated by the first `putenv`. -/
def composeEnv (env0 : List String) (tempDir : String) (sep : Char) : List String :=
  let env1 := putenv env0 "GOCOVOUT" "-"
  let gopath := getenv env0 "GOPATH"
  if gopath ≠ "" then putenv env1 "GOPATH" ((tempDir.push sep) ++ gopath)
  else putenv env1 "GOPATH" tempDir

/-- Entry predicate: the entry is keyed `GOPATH` (starts with `"GOPATH="`). -/
def gopathEntry (s : String) : Bool := strHasPre s "GOPATH="

/-- Entry predicate: the entry is keyed `GOCOVOUT`. -/
def gocovoutEntry (s : String) : Bool := strHasPre s "GOCOVOUT="

/-- Claim C1: `putenv` does not bind the given key exactly once by replacing
the first entry of that key.  On the environment `["GOCOVOUT=x", "GOPATH=/old"]`
with pair `("GOCOVOUT", "-")` it replaces the `GOPATH` entry (the match tests
the literal `"GOPATH="`, ignoring the `key` argument), leaving two `GOCOVOUT`
entries and dropping `GOPATH`, instead of replacing the first `GOCOVOUT`
entry in place.  Only the claim's concrete `GOPATH` example holds. -/
theorem putenv_ignores_key_c1 :
    putenv ["GOCOVOUT=x", "GOPATH=/old"] "GOCOVOUT" "-"
      = ["GOCOVOUT=x", "GOCOVOUT=-"] ∧
    (putenv ["GOCOVOUT=x", "GOPATH=/old"] "GOCOVOUT" "-").countP
      (fun s => strHasPre s "GOCOVOUT=") = 2 ∧
    putenv ["GOCOVOUT=x", "GOPATH=/old"] "GOCOVOUT" "-"
      ≠ ["GOCOVOUT=-", "GOPATH=/old"] ∧
    putenv ["GOPATH=/old"] "GOPATH" "/new" = ["GOPATH=/new"] := by
  refine ⟨?_, ?_, ?_, ?_⟩ <;> decide

/-- Claim C4: `putenv` is not idempotent.  Composing `("FOO", "v")` twice
onto `["A=1"]` appends the entry twice (the scan looks for the literal
`"GOPATH="`, never for `"FOO="`), so the result of composing twice differs
from composing once and holds two entries for the key `FOO`. -/
theorem putenv_not_idempotent_c4 :
    putenv (putenv ["A=1"] "FOO" "v") "FOO" "v" = ["A=1", "FOO=v", "FOO=v"] ∧
    putenv ["A=1"] "FOO" "v" = ["A=1", "FOO=v"] ∧
    putenv (putenv ["A=1"] "FOO" "v") "FOO" "v" ≠ putenv ["A=1"] "FOO" "v" ∧
    (putenv (putenv ["A=1"] "FOO" "v") "FOO" "v").countP
      (fun s => strHasPre s "FOO=") = 2 := by
  refine ⟨?_, ?_, ?_, ?_⟩ <;> decide

/-!
### The sandbox mirror (`symlinkHierarchy`, main.go lines 83–107)

`filepath.Walk` linearizes the depth-first traversal of the source subtree;
we model the walk as the resulting sequence of visited entries.  For a
directory the callback runs `os.MkdirAll` (mode 0700); for any other entry it
runs `os.Symlink` and, on failure, returns the error — the `// TODO copy file`
fallback is not implemented.  `filepath.Walk` aborts at the first error the
callback returns, which becomes `symlinkHierarchy`'s result.
-/

/-- One entry of the depth-first walk over the source subtree, together with
the oracle telling whether the filesystem call issued for it fails. -/
inductive WalkEntry where
  | dirE (name : String) (mkdirFails : Bool)
  | fileE (name : String) (linkFails : Bool)
deriving DecidableEq

/-- Function `symlinkHierarchy` (main.go lines 83–107) over the linearized walk:
directories are recreated with `MkdirAll`, every other entry is symlinked,
and the first failing call aborts the walk with its error.  A symlink failure
is returned as-is; no content copy is attempted. -/
def symlinkHierarchy : List WalkEntry → Option String
  | [] => none
  | WalkEntry.dirE n mf :: rest =>
    if mf then some ("mkdir " ++ n) else symlinkHierarchy rest
  | WalkEntry.fileE n lf :: rest =>
    if lf then some ("symlink " ++ n) else symlinkHierarchy rest

/-- Claim C3: no copy fallback exists.  A walk whose second file refuses to
link makes `symlinkHierarchy` fail with that error (the claim requires it to
fall back to copying and succeed), while the same walk with the link
succeeding mirrors fine. -/
theorem symlink_failure_fails_c3 :
    symlinkHierarchy
      [WalkEntry.dirE "pkg" false, WalkEntry.fileE "a.go" false,
       WalkEntry.fileE "b.go" true] = some "symlink b.go" ∧
    symlinkHierarchy
      [WalkEntry.dirE "pkg" false, WalkEntry.fileE "a.go" false,
       WalkEntry.fileE "b.go" false] = none := by
  exact ⟨rfl, rfl⟩

/-!
### `instrumentPackage` and `instrumentAndTest` (main.go lines 109–200)

The effectful steps are driven by oracles giving each external call's result.
The functions return the Go function's result together with the trace of
externally visible events, following the Go control flow statement by
statement.  In `instrumentPackage` the result of `symlinkHierarchy` is
assigned to `err` on line 120 and never read again (the loop on line 123
declares a fresh `err` with `:=`), and the return value of `printer.Fprint`
on line 138 is discarded; the model reproduces both. -/

/-- Externally visible events of one run. -/
inductive Ev where
  /-- `symlinkHierarchy` was invoked and returned this result. -/
  | mirrored (result : Option String)
  /-- `instrumenter.instrumentFile` was invoked on this member file. -/
  | instrument (f : String)
  /-- `os.Remove` was invoked on the sandbox copy of this file. -/
  | removeEv (f : String)
  /-- The instrumented file was serialized into the sandbox; `ok` is false
  when `printer.Fprint` reported an error (which the code discards). -/
  | write (f : String) (ok : Bool)
  /-- The `go test` child process was executed. -/
  | runTest
deriving DecidableEq

/-- Oracles for the per-file calls inside `instrumentPackage`'s loop. -/
structure FileOps where
  /-- Result of `in.instrumentFile(f, fset)` (line 123). -/
  instrumentErr : String → Option String
  /-- Result of `os.Remove` on the sandbox copy (line 130). -/
  removeErr : String → Option String
  /-- Result of `os.OpenFile(..., O_RDWR|O_CREATE, 0600)` (line 134). -/
  openErr : String → Option String
  /-- Whether `printer.Fprint` fails for this file (line 138); its error is
  discarded by the code. -/
  printFail : String → Bool
  /-- Result of `file.Close()` (line 139). -/
  closeErr : String → Option String

/-- The loop body of `instrumentPackage` (main.go lines 122–147) over the
member files, returning the first error (if any) and the event trace. -/
def instrumentLoop (ops : FileOps) : List String → Option String × List Ev
  | [] => (none, [])
  | f :: rest =>
    match ops.instrumentErr f with
    | some e => (some e, [Ev.instrument f])
    | none =>
      match ops.removeErr f with
      | some e => (some e, [Ev.instrument f, Ev.removeEv f])
      | none =>
        match ops.openErr f with
        | some e => (some e, [Ev.instrument f, Ev.removeEv f])
        | none =>
          match ops.closeErr f with
          | some e =>
            (some e, [Ev.instrument f, Ev.removeEv f, Ev.write f (!ops.printFail f)])
          | none =>
            let r := instrumentLoop ops rest
            (r.1, Ev.instrument f :: Ev.removeEv f :: Ev.write f (!ops.printFail f) :: r.2)

/-- Oracles for one `instrumentPackage` call: the per-file oracles, the
result of `parsePackage` (package resolution and parsing), and the
linearized walk handed to `symlinkHierarchy`. -/
structure PkgOps extends FileOps where
  /-- Result of `parsePackage` (line 111): `some` is a resolution/parse error. -/
  parseErr : Option String
  /-- The walk of the package directory mirrored by `symlinkHierarchy`. -/
  walk : List WalkEntry

/-- Function `instrumentPackage` (main.go lines 109–149): parse, then mirror the
directory — the error returned by `symlinkHierarchy` is assigned on
line 120 but never checked — then instrument and rewrite each member file. -/
def instrumentPackage (ops : PkgOps) (files : List String) : Option String × List Ev :=
  match ops.parseErr with
  | some e => (some e, [])
  | none =>
    let r := instrumentLoop ops.toFileOps files
    (r.1, Ev.mirrored (symlinkHierarchy ops.walk) :: r.2)

/-- Oracles for one `instrumentAndTest` run. -/
structure RunOps where
  /-- Whether `ioutil.TempDir("", "gocov")` fails (line 152). -/
  tempDirFail : Bool
  /-- Whether `os.Mkdir(tempDir/src, 0700)` fails (line 164). -/
  mkdirSrcFail : Bool
  /-- Oracles for the `instrumentPackage` step. -/
  pkg : PkgOps
  /-- The member files of the package (`pkg.Files`). -/
  files : List String
  /-- Exit status of the `go test` child process; `cmd.Run()` returns an
  error exactly when it is nonzero. -/
  childExit : Nat
  /-- Whether the deferred `os.RemoveAll(tempDir)` fails (line 158). -/
  removeAllFail : Bool

/-- Outcome of one `instrumentAndTest` run. -/
structure RunOut where
  /-- The returned result code `rc`. -/
  rc : Nat
  /-- Whether the temporary root was created. -/
  tempCreated : Bool
  /-- Whether the deferred `os.RemoveAll(tempDir)` ran. -/
  removeAttempted : Bool
  /-- Whether the temporary root ended up removed. -/
  tempRemoved : Bool
  /-- Whether the non-fatal cleanup warning was printed. -/
  cleanupWarned : Bool
  /-- The event trace of the run. -/
  events : List Ev
deriving DecidableEq

/-- The deferred cleanup (main.go lines 157–162) applied at every exit after
the temporary root exists: `os.RemoveAll` runs, a failure only prints a
warning, and `rc` is passed through unchanged. -/
def finishRun (ops : RunOps) (rc : Nat) (evs : List Ev) : RunOut :=
  { rc := rc, tempCreated := true, removeAttempted := true,
    tempRemoved := !ops.removeAllFail, cleanupWarned := ops.removeAllFail,
    events := evs }

/-- Function `instrumentAndTest` (main.go lines 151–200): create the temporary root,
defer its removal, create `src`, instrument the package, and run `go test`;
every failure returns 1, success of the child returns 0. -/
def instrumentAndTest (ops : RunOps) : RunOut :=
  if ops.tempDirFail then
    { rc := 1, tempCreated := false, removeAttempted := false,
      tempRemoved := false, cleanupWarned := false, events := [] }
  else if ops.mkdirSrcFail then finishRun ops 1 []
  else
    match instrumentPackage ops.pkg ops.files with
    | (some _, evs) => finishRun ops 1 evs
    | (none, evs) =>
      if ops.childExit = 0 then finishRun ops 0 (evs ++ [Ev.runTest])
      else finishRun ops 1 (evs ++ [Ev.runTest])

/-- All per-file calls succeed. -/
def okFileOps : FileOps :=
  { instrumentErr := fun _ => none, removeErr := fun _ => none,
    openErr := fun _ => none, printFail := fun _ => false,
    closeErr := fun _ => none }

/-- A run in which the sandbox mirror fails (`symlinkHierarchy` returns a
permission error on a nested file) while every later call succeeds. -/
def sandboxFailOps : RunOps :=
  { tempDirFail := false, mkdirSrcFail := false,
    pkg := { toFileOps := okFileOps, parseErr := none,
             walk := [WalkEntry.dirE "pkg" false, WalkEntry.fileE "a.go" false,
                      WalkEntry.fileE "nested" true] },
    files := ["a.go"], childExit := 0, removeAllFail := false }

/-- Claim C2: a `symlinkHierarchy` failure does not abort the run.  In the
modelled run the mirror step fails, yet the member file is still
instrumented, its sandbox copy is still replaced, the test runner still
executes, and the run returns 0 — `instrumentPackage` assigns the error on
line 120 and never checks it. -/
theorem symlink_error_ignored_c2 :
    symlinkHierarchy sandboxFailOps.pkg.walk = some "symlink nested" ∧
    (instrumentPackage sandboxFailOps.pkg sandboxFailOps.files).1 = none ∧
    (instrumentAndTest sandboxFailOps).rc = 0 ∧
    Ev.instrument "a.go" ∈ (instrumentAndTest sandboxFailOps).events ∧
    Ev.write "a.go" true ∈ (instrumentAndTest sandboxFailOps).events ∧
    Ev.runTest ∈ (instrumentAndTest sandboxFailOps).events := by
  refine ⟨rfl, rfl, rfl, ?_, ?_, ?_⟩ <;> decide

/-- A run in which serializing the transformed tree fails (`printer.Fprint`
reports an error on the single member file) while every other call succeeds. -/
def printFailOps : RunOps :=
  { tempDirFail := false, mkdirSrcFail := false,
    pkg := { toFileOps := { okFileOps with printFail := fun f => f == "a.go" },
             parseErr := none,
             walk := [WalkEntry.dirE "pkg" false, WalkEntry.fileE "a.go" false] },
    files := ["a.go"], childExit := 0, removeAllFail := false }

/-- Claim C5: a serialization failure is silently ignored.  When
`printer.Fprint` fails on the only member file, `instrumentPackage` still
returns no error (line 138 discards the result), the test runner still runs,
and the whole run reports success. -/
theorem print_error_ignored_c5 :
    (instrumentPackage printFailOps.pkg printFailOps.files).1 = none ∧
    Ev.write "a.go" false ∈ (instrumentAndTest printFailOps).events ∧
    (instrumentAndTest printFailOps).rc = 0 ∧
    Ev.runTest ∈ (instrumentAndTest printFailOps).events := by
  refine ⟨rfl, ?_, rfl, ?_⟩ <;> decide

/-- A run on a nonexistent package identifier: `build.Import` inside
`parsePackage` fails with a resolution error; nothing else is reached. -/
def resolveFailOps : RunOps :=
  { tempDirFail := false, mkdirSrcFail := false,
    pkg := { toFileOps := okFileOps,
             parseErr := some "cannot find package", walk := [] },
    files := [], childExit := 0, removeAllFail := false }

/-- Claim C6: once the temporary root exists, the deferred cleanup runs on
every exit path; it removes the root when `os.RemoveAll` succeeds, a removal
failure only warns and leaves the result code untouched, and a resolution
error (nonexistent package) makes the run fail with code 1 while the cleanup
still runs. -/
theorem run_cleanup_c6 (ops : RunOps) (h : ops.tempDirFail = false) :
    (instrumentAndTest ops).removeAttempted = true ∧
    (ops.removeAllFail = false → (instrumentAndTest ops).tempRemoved = true) ∧
    (ops.removeAllFail = true → (instrumentAndTest ops).cleanupWarned = true) ∧
    (instrumentAndTest { ops with removeAllFail := true }).rc
      = (instrumentAndTest { ops with removeAllFail := false }).rc ∧
    ((instrumentPackage ops.pkg ops.files).1.isSome → (instrumentAndTest ops).rc = 1) := by
  by_cases hm : ops.mkdirSrcFail
  · simp [instrumentAndTest, h, hm, finishRun]
  · rcases hp : instrumentPackage ops.pkg ops.files with ⟨r, evs⟩
    cases r with
    | some e => simp [instrumentAndTest, h, hm, hp, finishRun]
    | none =>
      by_cases hc : ops.childExit = 0 <;>
        simp [instrumentAndTest, h, hm, hp, hc, finishRun]

/-- Witness for C6: the nonexistent-package run from the claim.  The
temporary root is created, the resolution error aborts the run with code 1,
and the deferred removal still runs and removes the root. -/
theorem run_cleanup_c6_witness :
    resolveFailOps.tempDirFail = false ∧
    ((instrumentAndTest resolveFailOps).removeAttempted = true ∧
     (resolveFailOps.removeAllFail = false →
       (instrumentAndTest resolveFailOps).tempRemoved = true) ∧
     (resolveFailOps.removeAllFail = true →
       (instrumentAndTest resolveFailOps).cleanupWarned = true) ∧
     (instrumentAndTest { resolveFailOps with removeAllFail := true }).rc
       = (instrumentAndTest { resolveFailOps with removeAllFail := false }).rc ∧
     ((instrumentPackage resolveFailOps.pkg resolveFailOps.files).1.isSome →
       (instrumentAndTest resolveFailOps).rc = 1)) :=
  ⟨rfl, run_cleanup_c6 resolveFailOps rfl⟩

/-- A fully successful run up to the child process. -/
def okRunOps : RunOps :=
  { tempDirFail := false, mkdirSrcFail := false,
    pkg := { toFileOps := okFileOps, parseErr := none,
             walk := [WalkEntry.dirE "pkg" false, WalkEntry.fileE "a.go" false] },
    files := ["a.go"], childExit := 0, removeAllFail := false }

/-- Counterexample for C9: the run's result code is not in one-to-one
correspondence with the child's exit status — the distinct child exit
statuses 2 and 3 both map to result code 1 (`cmd.Run()`'s error is collapsed
to the generic `return 1`). -/
theorem run_rc_not_one_to_one_c9 :
    (instrumentAndTest { okRunOps with childExit := 2 }).rc
      = (instrumentAndTest { okRunOps with childExit := 3 }).rc ∧
    (2 : Nat) ≠ 3 ∧
    (instrumentAndTest { okRunOps with childExit := 2 }).rc = 1 := by
  exact ⟨rfl, by decide, rfl⟩

/-- Claim C9 (amended): when every step before the child process succeeds,
`instrumentAndTest` returns 0 exactly when the child exits with status 0,
and any nonzero child exit status yields the generic failure code 1. -/
theorem run_rc_generic_failure_c9 (ops : RunOps)
    (h1 : ops.tempDirFail = false) (h2 : ops.mkdirSrcFail = false)
    (h3 : (instrumentPackage ops.pkg ops.files).1 = none) :
    ((instrumentAndTest ops).rc = 0 ↔ ops.childExit = 0) ∧
    (ops.childExit ≠ 0 → (instrumentAndTest ops).rc = 1) := by
  rcases hp : instrumentPackage ops.pkg ops.files with ⟨r, evs⟩
  rw [hp] at h3
  subst h3
  by_cases hc : ops.childExit = 0 <;>
    simp [instrumentAndTest, h1, h2, hp, hc, finishRun]

/-- Witness for C9's amended theorem at the fully successful run. -/
theorem run_rc_generic_failure_c9_witness :
    okRunOps.tempDirFail = false ∧ okRunOps.mkdirSrcFail = false ∧
    (instrumentPackage okRunOps.pkg okRunOps.files).1 = none ∧
    (((instrumentAndTest okRunOps).rc = 0 ↔ okRunOps.childExit = 0) ∧
     (okRunOps.childExit ≠ 0 → (instrumentAndTest okRunOps).rc = 1)) :=
  ⟨rfl, rfl, rfl, run_rc_generic_failure_c9 okRunOps rfl rfl rfl⟩

/-!
### The filesystem frame property (claim C7)

The filesystem is a partial map from paths to nodes; a node is a regular
file with its content or a symbolic link to a target path.  The run touches
the filesystem through exactly these operations: `symlinkHierarchy` creates
directories and symlinks under the clone directory, the instrumentation loop
removes the mirrored entry at the sandbox path and then creates a fresh file
there (`os.Remove` then `os.OpenFile(..., O_CREATE, ...)`), and the deferred
cleanup removes everything under the temporary root. -/

/-- A filesystem node: a regular file or a symbolic link. -/
inductive Node where
  | file (content : String)
  | link (target : String)
deriving DecidableEq

/-- A filesystem: a partial map from paths to nodes. -/
abbrev FS : Type := String → Option Node

/-- Update the entry at path `p`. -/
def fsSet (fs : FS) (p : String) (n : Option Node) : FS :=
  fun q => if q = p then n else fs q

/-- Opening a path follows a symbolic link at that path to its target. -/
def resolveLink (fs : FS) (p : String) : String :=
  match fs p with
  | some (Node.link t) => t
  | _ => p

/-- Call `os.OpenFile(p, O_RDWR|O_CREATE, 0600)` followed by writing content `c`:
the write lands at the path the entry at `p` resolves to — through the link,
if `p` holds one. -/
def openWrite (fs : FS) (p c : String) : FS :=
  fsSet fs (resolveLink fs p) (some (Node.file c))

/-- The per-file replacement of `instrumentPackage` (main.go lines 128–142):
`os.Remove` the mirrored entry at the sandbox path, then create and write
the instrumented file there. -/
def replaceFile (fs : FS) (p c : String) : FS :=
  openWrite (fsSet fs p none) p c

/-- The writes `symlinkHierarchy` performs: each mirrored entry is created
at its clone path. -/
def applyWrites : List (String × Node) → FS → FS
  | [], fs => fs
  | w :: rest, fs => applyWrites rest (fsSet fs w.1 (some w.2))

/-- The instrumentation loop's writes: each member file's sandbox copy is
replaced by the instrumented content. -/
def instrumentAll : List (String × String) → FS → FS
  | [], fs => fs
  | pr :: rest, fs => instrumentAll rest (replaceFile fs pr.1 pr.2)

/-- Path `p` lies under the directory `root` (or is `root` itself). -/
def isUnder (root p : String) : Bool :=
  strHasPre p (root.push '/') || p == root

/-- Call `os.RemoveAll(root)`: every path under `root` is recursively removed. -/
def removeAllUnder (root : String) (fs : FS) : FS :=
  fun q => if isUnder root q then none else fs q

/-- The complete filesystem effect of one run: mirror the subtree into the
sandbox, replace the member files' sandbox copies, then tear the temporary
root down. -/
def runFS (mirror : List (String × Node)) (files : List (String × String))
    (tempRoot : String) (fs : FS) : FS :=
  removeAllUnder tempRoot (instrumentAll files (applyWrites mirror fs))

theorem fsSet_ne (fs : FS) (p : String) (n : Option Node) (q : String)
    (h : q ≠ p) : fsSet fs p n q = fs q := if_neg h

/-- Removing the mirrored entry before creating the instrumented file makes
the write land at the sandbox path itself: it never passes through a link. -/
theorem replaceFile_eq (fs : FS) (p c : String) :
    replaceFile fs p c = fsSet fs p (some (Node.file c)) := by
  funext q
  by_cases h : q = p <;>
    simp [replaceFile, openWrite, resolveLink, fsSet, h]

theorem applyWrites_frame (ws : List (String × Node)) (fs : FS) (q : String)
    (h : ∀ w ∈ ws, q ≠ w.1) : applyWrites ws fs q = fs q := by
  induction ws generalizing fs with
  | nil => rfl
  | cons w rest ih =>
    rw [applyWrites, ih _ fun w hw => h w (List.mem_cons_of_mem _ hw)]
    exact fsSet_ne fs w.1 _ q (h w (List.mem_cons_self _ _))

theorem instrumentAll_frame (files : List (String × String)) (fs : FS) (q : String)
    (h : ∀ pr ∈ files, q ≠ pr.1) : instrumentAll files fs q = fs q := by
  induction files generalizing fs with
  | nil => rfl
  | cons pr rest ih =>
    rw [instrumentAll, ih _ fun w hw => h w (List.mem_cons_of_mem _ hw),
      replaceFile_eq]
    exact fsSet_ne fs pr.1 _ q (h pr (List.mem_cons_self _ _))

/-- Claim C7: a run never modifies any path outside the temporary root.
Every path the mirror writes and every sandbox path the instrumentation
rewrites lies under the temporary root, so any original path — any path not
under that root — holds exactly the same entry after the run as before; and
because the mirrored entry is removed before the instrumented file is
created, the instrumented write lands at the sandbox path itself, never
through a link. -/
theorem originals_preserved_c7 (mirror : List (String × Node))
    (files : List (String × String)) (tempRoot : String) (fs : FS) (q : String)
    (hm : ∀ w ∈ mirror, isUnder tempRoot w.1 = true)
    (hf : ∀ pr ∈ files, isUnder tempRoot pr.1 = true)
    (hq : isUnder tempRoot q = false) :
    runFS mirror files tempRoot fs q = fs q ∧
    (∀ (fs2 : FS) (p c : String),
      replaceFile fs2 p c = fsSet fs2 p (some (Node.file c))) := by
  refine ⟨?_, replaceFile_eq⟩
  have hne : ∀ (p : String), isUnder tempRoot p = true → q ≠ p := by
    intro p hp he
    rw [he, hp] at hq
    cases hq
  rw [runFS, removeAllUnder]
  simp only [hq, if_neg, Bool.false_eq_true, if_false]
  rw [instrumentAll_frame _ _ _ fun pr hpr => hne pr.1 (hf pr hpr),
    applyWrites_frame _ _ _ fun w hw => hne w.1 (hm w hw)]

/-- Witness for C7: a one-file package at `/home/u/src/pkg/a.go`, mirrored
as a symlink into the sandbox `/tmp/gocov1` and rewritten there; the
original path still holds its original content after the run. -/
theorem originals_preserved_c7_witness :
    (∀ w ∈ [("/tmp/gocov1/src/pkg/a.go",
             Node.link "/home/u/src/pkg/a.go")],
       isUnder "/tmp/gocov1" w.1 = true) ∧
    (∀ pr ∈ [("/tmp/gocov1/src/pkg/a.go", "instrumented")],
       isUnder "/tmp/gocov1" pr.1 = true) ∧
    isUnder "/tmp/gocov1" "/home/u/src/pkg/a.go" = false ∧
    runFS [("/tmp/gocov1/src/pkg/a.go", Node.link "/home/u/src/pkg/a.go")]
        [("/tmp/gocov1/src/pkg/a.go", "instrumented")] "/tmp/gocov1"
        (fun q => if q = "/home/u/src/pkg/a.go"
          then some (Node.file "package pkg") else none)
        "/home/u/src/pkg/a.go"
      = (fun q => if q = "/home/u/src/pkg/a.go"
          then some (Node.file "package pkg") else none)
        "/home/u/src/pkg/a.go" :=
  ⟨by decide, by decide, by decide,
    (originals_preserved_c7 _ _ _ _ _ (by decide) (by decide) (by decide)).1⟩

/-!
### The composed child environment (claim C8)
-/

theorem data_append (a b : String) : (a ++ b).data = a.data ++ b.data := by
  cases a
  cases b
  rfl

theorem strHasPre_append (pre v : String) : strHasPre (pre ++ v) pre = true := by
  rw [strHasPre, data_append]
  exact List.isPrefixOf_iff_prefix.mpr (List.prefix_append _ _)

theorem strHasPre_decompose (s pre : String) (h : strHasPre s pre = true) :
    ∃ v : String, s = pre ++ v := by
  rw [strHasPre] at h
  obtain ⟨t, ht⟩ := List.isPrefixOf_iff_prefix.mp h
  refine ⟨String.mk t, ?_⟩
  cases s with
  | mk sd =>
    cases pre with
    | mk pd =>
      cases ht
      rfl

theorem entryValue_append (k v : String) : entryValue (k ++ "=" ++ v) k = v := by
  cases k with
  | mk kd =>
    cases v with
    | mk vd =>
      rw [entryValue]
      rw [show (String.mk kd ++ "=" ++ String.mk vd).data = (kd ++ ['=']) ++ vd from rfl]
      rw [show (String.mk kd).data.length + 1 = (kd ++ ['=']).length by simp]
      rw [List.drop_left]

/-- When no entry starts with `"GOPATH="`, `putenv` appends. -/
theorem putenv_no_match (env : List String) (k v : String)
    (h : ∀ s ∈ env, gopathEntry s = false) :
    putenv env k v = env ++ [k ++ "=" ++ v] := by
  induction env with
  | nil => rfl
  | cons s rest ih =>
    rw [putenv, show strHasPre s "GOPATH=" = false from h s (List.mem_cons_self _ _)]
    simp only [Bool.false_eq_true, if_false, List.cons_append, List.cons.injEq, true_and]
    exact ih fun t ht => h t (List.mem_cons_of_mem _ ht)

/-- Function `putenv` replaces the first entry starting with `"GOPATH="` in place. -/
theorem putenv_match (A B : List String) (g k v : String)
    (hA : ∀ s ∈ A, gopathEntry s = false) (hg : gopathEntry g = true) :
    putenv (A ++ g :: B) k v = A ++ (k ++ "=" ++ v) :: B := by
  induction A with
  | nil => simp [putenv, show strHasPre g "GOPATH=" = true from hg]
  | cons s rest ih =>
    rw [List.cons_append, putenv,
      show strHasPre s "GOPATH=" = false from hA s (List.mem_cons_self _ _)]
    simp only [Bool.false_eq_true, if_false, List.cons_append, List.cons.injEq, true_and]
    exact ih fun t ht => hA t (List.mem_cons_of_mem _ ht)

theorem getenv_append_no_match (A B : List String) (k : String)
    (h : ∀ s ∈ A, strHasPre s (k ++ "=") = false) :
    getenv (A ++ B) k = getenv B k := by
  induction A with
  | nil => rfl
  | cons s rest ih =>
    rw [List.cons_append, getenv, h s (List.mem_cons_self _ _)]
    simp only [Bool.false_eq_true, if_false]
    exact ih fun t ht => h t (List.mem_cons_of_mem _ ht)

theorem getenv_no_match (E : List String) (k : String)
    (h : ∀ s ∈ E, strHasPre s (k ++ "=") = false) : getenv E k = "" := by
  have := getenv_append_no_match E [] k h
  simpa using this

/-- A list whose `countP` is one splits around its unique satisfying
element. -/
theorem countP_one_decompose {α : Type} (p : α → Bool) (l : List α)
    (h : l.countP p = 1) :
    ∃ A g B, l = A ++ g :: B ∧ p g = true ∧
      (∀ s ∈ A, p s = false) ∧ (∀ s ∈ B, p s = false) := by
  induction l with
  | nil => simp [List.countP_nil] at h
  | cons s rest ih =>
    by_cases hs : p s = true
    · refine ⟨[], s, rest, rfl, hs, by simp, ?_⟩
      rw [List.countP_cons_of_pos p _ hs] at h
      have h0 : rest.countP p = 0 := by omega
      intro t ht
      have := List.countP_eq_zero.mp h0 t ht
      simpa using this
    · rw [List.countP_cons_of_neg p _ hs] at h
      obtain ⟨A, g, B, hEq, hg, hA, hB⟩ := ih h
      refine ⟨s :: A, g, B, by rw [hEq, List.cons_append], hg, ?_, hB⟩
      intro t ht
      rcases List.mem_cons.mp ht with rfl | ht
      · simpa using hs
      · exact hA t ht

/-- Counterexample for C8: with a pre-existing `GOCOVOUT` entry the composed
environment does not have `GOCOVOUT` set to `"-"`: its first (authoritative)
`GOCOVOUT` binding is still the old value, because the `putenv` that should
replace it matched on `"GOPATH="` and appended instead. -/
theorem composeEnv_counterexample_c8 :
    composeEnv ["GOCOVOUT=x"] "/t" ':'
      = ["GOCOVOUT=x", "GOCOVOUT=-", "GOPATH=/t"] ∧
    getenv (composeEnv ["GOCOVOUT=x"] "/t" ':') "GOCOVOUT" = "x" ∧
    ("x" : String) ≠ "-" := by
  refine ⟨?_, ?_, ?_⟩ <;> decide

/-- Claim C8 (amended): provided the process environment has no pre-existing
`GOCOVOUT` entry and at most one `GOPATH` entry, the composed child
environment binds `GOCOVOUT` to `"-"`, holds exactly one `GOPATH` entry —
bound to the sandbox root joined ahead of the pre-existing `GOPATH` value
with the path-list separator when `GOPATH` was set (nonempty), and to the
sandbox root alone otherwise — and carries every entry of any other key
through unchanged, in order. -/
theorem composeEnv_spec_c8 (E : List String) (temp : String) (sep : Char)
    (hcov : ∀ s ∈ E, gocovoutEntry s = false)
    (hgo : E.countP gopathEntry ≤ 1) :
    getenv (composeEnv E temp sep) "GOCOVOUT" = "-" ∧
    (composeEnv E temp sep).filter gopathEntry
      = ["GOPATH=" ++ (if getenv E "GOPATH" = "" then temp
          else (temp.push sep) ++ getenv E "GOPATH")] ∧
    (composeEnv E temp sep).filter (fun s => !gopathEntry s && !gocovoutEntry s)
      = E.filter (fun s => !gopathEntry s) := by
  have hckey : ("GOCOVOUT" : String) ++ "=" = "GOCOVOUT=" := rfl
  have hgkey : ("GOPATH" : String) ++ "=" = "GOPATH=" := rfl
  have hcovne : gopathEntry "GOCOVOUT=-" = false := by decide
  have hcovself : strHasPre "GOCOVOUT=-" ("GOCOVOUT" ++ "=") = true := by decide
  have hcovval : entryValue "GOCOVOUT=-" "GOCOVOUT" = "-" := by decide
  rcases Nat.le_one_iff_eq_zero_or_eq_one.mp hgo with h0 | h1
  · -- no pre-existing GOPATH entry
    have hnog : ∀ s ∈ E, gopathEntry s = false := by
      intro s hs
      have := List.countP_eq_zero.mp h0 s hs
      simpa using this
    have hgE : getenv E "GOPATH" = "" := by
      refine getenv_no_match E _ fun s hs => ?_
      rw [hgkey]
      exact hnog s hs
    have henv1 : putenv E "GOCOVOUT" "-" = E ++ ["GOCOVOUT=-"] :=
      putenv_no_match E _ _ hnog
    have hR : composeEnv E temp sep = E ++ ["GOCOVOUT=-", "GOPATH=" ++ temp] := by
      rw [composeEnv]
      simp only [hgE, ne_eq, not_true_eq_false, if_false, henv1]
      rw [putenv_no_match]
      · simp
      · intro s hs
        rcases List.mem_append.mp hs with hs | hs
        · exact hnog s hs
        · simp only [List.mem_singleton] at hs
          rw [hs]
          exact hcovne
    rw [hR, hgE]
    refine ⟨?_, ?_, ?_⟩
    · rw [getenv_append_no_match E _ _ fun s hs => by rw [hckey]; exact hcov s hs]
      rw [getenv, hcovself]
      simpa using hcovval
    · rw [List.filter_append, List.filter_eq_nil_iff.mpr
        (fun s hs => by simp [hnog s hs])]
      simp only [if_pos rfl, List.nil_append]
      rw [List.filter, hcovne]
      rw [List.filter, show gopathEntry ("GOPATH=" ++ temp) = true from
        strHasPre_append "GOPATH=" temp]
      rfl
    · have hself : E.filter (fun s => !gopathEntry s && !gocovoutEntry s) = E :=
        List.filter_eq_self.mpr fun s hs => by simp [hnog s hs, hcov s hs]
      have hselfR : E.filter (fun s => !gopathEntry s) = E :=
        List.filter_eq_self.mpr fun s hs => by simp [hnog s hs]
      have hgp : gopathEntry ("GOPATH=" ++ temp) = true :=
        strHasPre_append "GOPATH=" temp
      simp [List.filter_append, List.filter_cons, hself, hselfR, hcovne, hgp,
        show gocovoutEntry "GOCOVOUT=-" = true by decide]
  · -- exactly one pre-existing GOPATH entry
    obtain ⟨A, g, B, hEq, hg, hA, hB⟩ := countP_one_decompose gopathEntry E h1
    obtain ⟨gv, hgv⟩ := strHasPre_decompose g "GOPATH=" hg
    have hgval : entryValue g "GOPATH" = gv := by
      rw [hgv, show ("GOPATH=" : String) ++ gv = "GOPATH" ++ "=" ++ gv from rfl]
      exact entryValue_append "GOPATH" gv
    have hgE : getenv E "GOPATH" = gv := by
      rw [hEq, getenv_append_no_match A _ _ fun s hs => by
        rw [hgkey]; exact hA s hs]
      rw [getenv, hgkey, show strHasPre g "GOPATH=" = true from hg]
      simp [hgval]
    have hcovA : ∀ s ∈ A, gocovoutEntry s = false := fun s hs =>
      hcov s (hEq ▸ List.mem_append.mpr (Or.inl hs))
    have hcovB : ∀ s ∈ B, gocovoutEntry s = false := fun s hs =>
      hcov s (hEq ▸ List.mem_append.mpr (Or.inr (List.mem_cons_of_mem _ hs)))
    have henv1 : putenv E "GOCOVOUT" "-" = A ++ "GOCOVOUT=-" :: B := by
      rw [hEq]
      exact putenv_match A B g _ _ hA hg
    have hnog1 : ∀ s ∈ A ++ "GOCOVOUT=-" :: B, gopathEntry s = false := by
      intro s hs
      rcases List.mem_append.mp hs with hs | hs
      · exact hA s hs
      · rcases List.mem_cons.mp hs with rfl | hs
        · exact hcovne
        · exact hB s hs
    have hR : composeEnv E temp sep
        = A ++ "GOCOVOUT=-" :: (B ++ ["GOPATH=" ++
            (if gv = "" then temp else temp.push sep ++ gv)]) := by
      rw [composeEnv]
      simp only [hgE, henv1]
      by_cases hgv0 : gv = ""
      · simp only [hgv0, ne_eq, not_true_eq_false, if_false,
          if_pos rfl]
        rw [putenv_no_match _ _ _ hnog1]
        simp
      · simp only [ne_eq, hgv0, not_false_eq_true, if_true, if_neg hgv0]
        rw [putenv_no_match _ _ _ hnog1]
        simp
    rw [hR, hgE]
    have hgpNew : gopathEntry ("GOPATH=" ++
        (if gv = "" then temp else temp.push sep ++ gv)) = true :=
      strHasPre_append "GOPATH=" _
    refine ⟨?_, ?_, ?_⟩
    · rw [getenv_append_no_match A _ _ fun s hs => by
        rw [hckey]; exact hcovA s hs]
      rw [getenv, hcovself]
      simpa using hcovval
    · rw [List.filter_append, List.filter_eq_nil_iff.mpr
        (fun s hs => by simp [hA s hs])]
      rw [List.filter, hcovne]
      rw [List.filter_append, List.filter_eq_nil_iff.mpr
        (fun s hs => by simp [hB s hs])]
      rw [List.filter, hgpNew]
      simp
    · have hselfA : A.filter (fun s => !gopathEntry s && !gocovoutEntry s) = A :=
        List.filter_eq_self.mpr fun s hs => by simp [hA s hs, hcovA s hs]
      have hselfB : B.filter (fun s => !gopathEntry s && !gocovoutEntry s) = B :=
        List.filter_eq_self.mpr fun s hs => by simp [hB s hs, hcovB s hs]
      have hselfA2 : A.filter (fun s => !gopathEntry s) = A :=
        List.filter_eq_self.mpr fun s hs => by simp [hA s hs]
      have hselfB2 : B.filter (fun s => !gopathEntry s) = B :=
        List.filter_eq_self.mpr fun s hs => by simp [hB s hs]
      simp [hEq, List.filter_append, List.filter_cons, hselfA, hselfB, hselfA2,
        hselfB2, hcovne, hgpNew, hg,
        show gocovoutEntry "GOCOVOUT=-" = true by decide]

/-- Witness for C8's amended theorem: environment `["HOME=/h", "GOPATH=/old"]`,
sandbox root `/t`, separator `:`. -/
theorem composeEnv_spec_c8_witness :
    (∀ s ∈ ["HOME=/h", "GOPATH=/old"], gocovoutEntry s = false) ∧
    (["HOME=/h", "GOPATH=/old"] : List String).countP gopathEntry ≤ 1 ∧
    (getenv (composeEnv ["HOME=/h", "GOPATH=/old"] "/t" ':') "GOCOVOUT" = "-" ∧
     (composeEnv ["HOME=/h", "GOPATH=/old"] "/t" ':').filter gopathEntry
       = ["GOPATH=" ++ (if getenv ["HOME=/h", "GOPATH=/old"] "GOPATH" = "" then "/t"
           else (("/t" : String).push ':') ++ getenv ["HOME=/h", "GOPATH=/old"] "GOPATH")] ∧
     (composeEnv ["HOME=/h", "GOPATH=/old"] "/t" ':').filter
         (fun s => !gopathEntry s && !gocovoutEntry s)
       = (["HOME=/h", "GOPATH=/old"] : List String).filter (fun s => !gopathEntry s)) :=
  ⟨by decide, by decide,
    composeEnv_spec_c8 ["HOME=/h", "GOPATH=/old"] "/t" ':' (by decide) (by decide)⟩

/-!
### The parse-time file filter (`parsePackage`, main.go lines 61–81)

`parsePackage` sorts `p.GoFiles` (`sort.Strings`, an ascending sort — modelled
by insertion sort, which produces the same sorted permutation since equal
strings are identical) and the filter closure tests membership of a directory
entry's name with `sort.SearchStrings` — the `sort.Search` binary-search
loop — followed by an equality check at the found index.  Go compares strings
bytewise; on UTF-8 this agrees with the character-list order of `String`. -/

/-- Go `sort.Strings`: sort a string list ascending. -/
def sortStrings (l : List String) : List String := List.insertionSort (· ≤ ·) l

/-- The loop of `sort.Search n f` with `f h := a[h] >= x`: starting from
`i, j := 0, n`, while `i < j` take `h := (i+j)/2` and set `i = h+1` when
`!f(h)` (that is, `a[h] < x`), else `j = h`; return `i`. -/
def searchLoop (a : List String) (x : String) (i j : Nat) : Nat :=
  if h : i < j then
    if a.getD ((i + j) / 2) "" < x then searchLoop a x ((i + j) / 2 + 1) j
    else searchLoop a x i ((i + j) / 2)
  else i
termination_by j - i
decreasing_by
  · omega
  · omega

/-- Go `sort.SearchStrings a x`: `sort.Search (len a) (fun i => a[i] >= x)`. -/
def searchStrings (a : List String) (x : String) : Nat := searchLoop a x 0 a.length

/-- The filter closure of `parsePackage` (main.go lines 71–75): look `name`
up in the sorted member file list with `sort.SearchStrings` and accept when
the found index is in range and holds exactly `name`. -/
def goFilter (goFiles : List String) (name : String) : Bool :=
  decide (searchStrings (sortStrings goFiles) name < (sortStrings goFiles).length) &&
  decide ((sortStrings goFiles).getD (searchStrings (sortStrings goFiles) name) "" = name)

/-- Call `parser.ParseDir` with the filter: of the names found in the package
directory, exactly those accepted by the filter are parsed. -/
def parseDirNames (entries goFiles : List String) : List String :=
  entries.filter (fun n => goFilter goFiles n)

theorem getD_lt (l : List String) (n : Nat) (h : n < l.length) :
    l.getD n "" = l.get ⟨n, h⟩ := by
  simp [List.getD_eq_getElem?_getD, List.getElem?_eq_getElem h,
    List.get_eq_getElem]

theorem sorted_getD_le (l : List String) (hs : List.Sorted (· ≤ ·) l)
    (a b : Nat) (hab : a ≤ b) (hb : b < l.length) :
    l.getD a "" ≤ l.getD b "" := by
  have ha : a < l.length := Nat.lt_of_le_of_lt hab hb
  rcases Nat.eq_or_lt_of_le hab with rfl | hlt
  · exact le_refl _
  · rw [getD_lt l a ha, getD_lt l b hb]
    exact hs.rel_get_of_lt (Fin.mk_lt_mk.mpr hlt)

/-- Correctness of the `sort.Search` loop on a sorted list: the returned
index separates the entries strictly below `x` from those at or above it. -/
theorem searchLoop_spec (a : List String) (x : String)
    (hs : List.Sorted (· ≤ ·) a) :
    ∀ i j, i ≤ j → j ≤ a.length →
    (∀ k, k < i → a.getD k "" < x) →
    (∀ k, j ≤ k → k < a.length → x ≤ a.getD k "") →
    (i ≤ searchLoop a x i j ∧ searchLoop a x i j ≤ j) ∧
    (∀ k, k < searchLoop a x i j → a.getD k "" < x) ∧
    (∀ k, searchLoop a x i j ≤ k → k < a.length → x ≤ a.getD k "") := by
  intro i j
  induction i, j using searchLoop.induct a x with
  | case1 i j h hcond ih =>
    intro hij hj h1 h2
    rw [searchLoop, dif_pos h, if_pos hcond]
    have hm : (i + j) / 2 < j := by omega
    have h1x : ∀ k, k < (i + j) / 2 + 1 → a.getD k "" < x := by
      intro k hk
      exact lt_of_le_of_lt
        (sorted_getD_le a hs k _ (by omega) (by omega)) hcond
    obtain ⟨⟨hr1, hr2⟩, hl, hg⟩ := ih (by omega) hj h1x h2
    exact ⟨⟨by omega, hr2⟩, hl, hg⟩
  | case2 i j h hcond ih =>
    intro hij hj h1 h2
    rw [searchLoop, dif_pos h, if_neg hcond]
    have hm : (i + j) / 2 < j := by omega
    have hxm : x ≤ a.getD ((i + j) / 2) "" := le_of_not_lt hcond
    have h2x : ∀ k, (i + j) / 2 ≤ k → k < a.length → x ≤ a.getD k "" := by
      intro k hk hk2
      exact le_trans hxm (sorted_getD_le a hs _ k hk hk2)
    obtain ⟨⟨hr1, hr2⟩, hl, hg⟩ := ih (by omega) (by omega) h1 h2x
    exact ⟨⟨hr1, by omega⟩, hl, hg⟩
  | case3 i j h =>
    intro hij hj h1 h2
    rw [searchLoop, dif_neg h]
    exact ⟨⟨le_refl _, hij⟩, h1, fun k hk hk2 => h2 k (by omega) hk2⟩

/-- The binary-search membership test of the filter is exact on a sorted
list. -/
theorem search_mem_iff (s : List String) (x : String)
    (hs : List.Sorted (· ≤ ·) s) :
    (decide (searchStrings s x < s.length) &&
      decide (s.getD (searchStrings s x) "" = x)) = true ↔ x ∈ s := by
  have hr : searchStrings s x = searchLoop s x 0 s.length := rfl
  obtain ⟨⟨hr0, hrn⟩, hlt, hge⟩ := searchLoop_spec s x hs 0 s.length
    (Nat.zero_le _) (le_refl _)
    (fun k hk => absurd hk (Nat.not_lt_zero k))
    (fun k hk hk2 => absurd hk2 (by omega))
  rw [← hr] at hr0 hrn hlt hge
  rw [Bool.and_eq_true, decide_eq_true_iff, decide_eq_true_iff]
  constructor
  · rintro ⟨h1, h2⟩
    rw [← h2, getD_lt s _ h1]
    exact List.get_mem s _ h1
  · intro hx
    obtain ⟨⟨k, hk⟩, hkx⟩ := List.mem_iff_get.mp hx
    have hkD : s.getD k "" = x := by rw [getD_lt s k hk]; exact hkx
    have hkr : searchStrings s x ≤ k := by
      by_contra hc
      push_neg at hc
      have := hlt k hc
      rw [hkD] at this
      exact lt_irrefl x this
    have h1 : searchStrings s x < s.length := Nat.lt_of_le_of_lt hkr hk
    have hxle : x ≤ s.getD (searchStrings s x) "" := hge _ (le_refl _) h1
    have hle2 : s.getD (searchStrings s x) "" ≤ s.getD k "" :=
      sorted_getD_le s hs _ k hkr hk
    rw [hkD] at hle2
    exact ⟨h1, le_antisymm hle2 hxle⟩

/-- The filter accepts exactly the members of the (unsorted) member file
list: sorting preserves membership, and the binary search is exact on the
sorted list. -/
theorem goFilter_iff (gf : List String) (name : String) :
    goFilter gf name = true ↔ name ∈ gf := by
  rw [goFilter, search_mem_iff (sortStrings gf) name
    (show List.Sorted (fun a b => a ≤ b) (sortStrings gf) from
      List.sorted_insertionSort _ gf)]
  exact (List.perm_insertionSort _ gf).mem_iff

/-- Claim C10: the parse-time file filter accepts a name exactly when it is
in the member file list (sorted, membership by binary search), and a
directory entry is parsed exactly when it is both present in the directory
and a member. -/
theorem goFilter_member_c10 (goFiles entries : List String) (name : String) :
    (goFilter goFiles name = true ↔ name ∈ goFiles) ∧
    (name ∈ parseDirNames entries goFiles ↔ name ∈ entries ∧ name ∈ goFiles) := by
  refine ⟨goFilter_iff goFiles name, ?_⟩
  rw [parseDirNames, List.mem_filter, goFilter_iff goFiles name]

end Gocov
